import Mathlib

/-!
Shallow embedding of the DNS message codec from `src/lib.rs` of the
repository akshayrivers/DNS-Resolver.

Modelling conventions:
* A Rust byte buffer (`&[u8]`, `Vec<u8>`) is a `List Nat`; every byte the
  code produces is `< 256`, and where a Rust cast `as u8` truncates we
  write `% 256` explicitly.
* A Rust `String` is modelled by its UTF-8 byte sequence (`List Nat`).
  `split('.')` is byte-level splitting on 46 (the code point of the dot,
  which in valid UTF-8 occurs only as that character), `join(".")` is
  byte-level joining with 46, and `String::from_utf8_lossy` is modelled as
  the identity on the label bytes, which is its byte-level behaviour on
  valid UTF-8 input.
* Rust `u16::from_be_bytes` / `to_be_bytes` become explicit base-256
  arithmetic.
* `from_bytes` indexes the buffer directly (`buf[pos]`), which panics when
  out of bounds; the model returns `RunRes.panicked` there.  The
  `parse_qname` loop of the source can diverge (a compression pointer may
  jump to itself), so the loop is instrumented with fuel: `RunRes.fuelOut`
  means the loop was still running after the given number of iterations.
  A run that returns `.ok` for some fuel is exactly a terminating run of
  the source; a run that is `.fuelOut` for every fuel is a diverging run.
-/

/-- Result of running a piece of Rust code: a value, a panic
(out-of-bounds index or slice), or exhaustion of the instrumentation
fuel. -/
inductive RunRes (α : Type) where
  | ok : α → RunRes α
  | panicked : RunRes α
  | fuelOut : RunRes α
deriving DecidableEq, Repr

namespace RunRes

def bind {α β : Type} : RunRes α → (α → RunRes β) → RunRes β
  | ok a, f => f a
  | panicked, _ => panicked
  | fuelOut, _ => fuelOut

instance : Monad RunRes where
  pure := ok
  bind := bind

@[simp] theorem bind_ok {α β : Type} (a : α) (f : α → RunRes β) :
    bind (ok a) f = f a := rfl

@[simp] theorem bind_panicked {α β : Type} (f : α → RunRes β) :
    bind (panicked : RunRes α) f = panicked := rfl

@[simp] theorem bind_fuelOut {α β : Type} (f : α → RunRes β) :
    bind (fuelOut : RunRes α) f = fuelOut := rfl

@[simp] theorem monad_bind_eq_bind {α β : Type} (x : RunRes α) (f : α → RunRes β) :
    x >>= f = bind x f := rfl

@[simp] theorem pure_eq_ok {α : Type} (a : α) : (pure a : RunRes α) = ok a := rfl

end RunRes

/-- Model of `buf[i]` in Rust: the byte, or a panic when `i` is out of bounds. -/
def readByte : List Nat → Nat → RunRes Nat
  | [], _ => .panicked
  | b :: _, 0 => .ok b
  | _ :: rest, n + 1 => readByte rest n

/-- Model of `u16::from_be_bytes([buf[i], buf[i+1]])` in Rust. -/
def read_u16 (buf : List Nat) (i : Nat) : RunRes Nat := do
  let hi ← readByte buf i
  let lo ← readByte buf (i + 1)
  pure (hi * 256 + lo)

/-- Model of `u32::from_be_bytes([buf[i], .., buf[i+3]])` in Rust. -/
def read_u32 (buf : List Nat) (i : Nat) : RunRes Nat := do
  let b0 ← readByte buf i
  let b1 ← readByte buf (i + 1)
  let b2 ← readByte buf (i + 2)
  let b3 ← readByte buf (i + 3)
  pure (((b0 * 256 + b1) * 256 + b2) * 256 + b3)

/-- Model of `u16::to_be_bytes` in Rust (the header and question fields written by
`to_bytes` are `u16`, i.e. `< 65536`). -/
def be16 (n : Nat) : List Nat := [n / 256 % 256, n % 256]

/-- Model of `String::split('.')` of the source, on the UTF-8 bytes of the string:
splits on every dot byte, keeping empty pieces, and yields `[[]]` on the
empty string, exactly as Rust does. -/
def splitDot : List Nat → List (List Nat)
  | [] => [[]]
  | b :: rest =>
    if b = 46 then [] :: splitDot rest
    else
      match splitDot rest with
      | [] => [[b]]
      | p :: ps => (b :: p) :: ps

/-- Model of `labels.join(".")` of the source, on UTF-8 bytes. -/
def joinDots : List (List Nat) → List Nat
  | [] => []
  | [l] => l
  | l :: ls => l ++ 46 :: joinDots ls

/-- The question-name bytes emitted by `to_bytes`: for each label one
length byte (`label.len() as u8`, hence `% 256`) followed by the label
bytes. -/
def encodeLabels (labels : List (List Nat)) : List Nat :=
  labels.flatMap (fun l => (l.length % 256) :: l)

/-- Struct `DnsHeader` of the source; all six fields are `u16`. -/
structure DnsHeader where
  identification : Nat
  flags : Nat
  no_of_questions : Nat
  no_of_answers_rr : Nat
  no_of_authority_rr : Nat
  no_of_additional_rr : Nat
deriving DecidableEq, Repr

/-- Struct `DnsQuestion` of the source; `qname` is the UTF-8 bytes of the name. -/
structure DnsQuestion where
  qname : List Nat
  qtype : Nat
  qclass : Nat
deriving DecidableEq, Repr

/-- Struct `ResourceRecord` of the source (`rr_class` models the Rust field
`class`, a reserved word in Lean). -/
structure ResourceRecord where
  name : List Nat
  rr_type : Nat
  rr_class : Nat
  ttl : Nat
  rdlength : Nat
  rdata : List Nat
deriving DecidableEq, Repr

/-- Struct `DnsMessage` of the source: one header, exactly one question slot, and
three record lists. -/
structure DnsMessage where
  header : DnsHeader
  question : DnsQuestion
  answers : List ResourceRecord
  authority : List ResourceRecord
  additional : List ResourceRecord
deriving DecidableEq, Repr

/-- The loop body of `parse_qname` in the source, with its mutable state
(`pos`, `jumped`, `original_pos`, `labels`) threaded explicitly and a fuel
bound on the number of loop iterations.  Each arm mirrors one branch of
the Rust loop in the source order: pointer check, terminator check, label
copy (whose slice `&buf[pos..end]` panics when `end` exceeds the buffer
length). -/
def parse_qname_loop (buf : List Nat) :
    Nat → Nat → Bool → Nat → List (List Nat) → RunRes (List Nat × Nat)
  | 0, _, _, _, _ => .fuelOut
  | fuel + 1, pos, jumped, original_pos, labels => do
    let byte ← readByte buf pos
    if byte &&& 192 = 192 then do
      let second_byte ← readByte buf (pos + 1)
      let upper_pointer_bits := byte ^^^ 192
      let pointer_offset := (upper_pointer_bits <<< 8) ||| second_byte
      let original_pos2 := if jumped then original_pos else pos + 2
      parse_qname_loop buf fuel pointer_offset true original_pos2 labels
    else if byte = 0 then
      .ok (joinDots labels, if jumped then original_pos else pos + 1)
    else
      if pos + 1 + byte ≤ buf.length then
        parse_qname_loop buf fuel (pos + 1 + byte) jumped original_pos
          (labels ++ [(buf.drop (pos + 1)).take byte])
      else .panicked

/-- Function `parse_qname` of the source: starts the loop with no labels,
`jumped = false` and `original_pos = 0`. -/
def parse_qname (buf : List Nat) (fuel : Nat) (pos : Nat) : RunRes (List Nat × Nat) :=
  parse_qname_loop buf fuel pos false 0 []

/-- Function `parse_rr` of the source: name, then type, class, ttl, rdlength, and
`rdlength` bytes of rdata (the slice panics when it runs past the end). -/
def parse_rr (buf : List Nat) (fuel : Nat) (pos : Nat) : RunRes (ResourceRecord × Nat) := do
  let (name, pos1) ← parse_qname buf fuel pos
  let rr_type ← read_u16 buf pos1
  let rr_class ← read_u16 buf (pos1 + 2)
  let ttl ← read_u32 buf (pos1 + 4)
  let rdlength ← read_u16 buf (pos1 + 8)
  if pos1 + 10 + rdlength ≤ buf.length then
    .ok (⟨name, rr_type, rr_class, ttl, rdlength,
          (buf.drop (pos1 + 10)).take rdlength⟩, pos1 + 10 + rdlength)
  else .panicked

/-- The `for _ in 0..header.no_of_questions` loop of `from_bytes`: parses
`n` questions starting at `pos`. -/
def parse_questions (buf : List Nat) (fuel : Nat) :
    Nat → Nat → RunRes (List DnsQuestion × Nat)
  | 0, pos => .ok ([], pos)
  | n + 1, pos => do
    let (qname, pos1) ← parse_qname buf fuel pos
    let qtype ← read_u16 buf pos1
    let qclass ← read_u16 buf (pos1 + 2)
    let (rest, posEnd) ← parse_questions buf fuel n (pos1 + 4)
    .ok (⟨qname, qtype, qclass⟩ :: rest, posEnd)

/-- The three record loops of `from_bytes`: parses `n` resource records
starting at `pos`. -/
def parse_rrs (buf : List Nat) (fuel : Nat) :
    Nat → Nat → RunRes (List ResourceRecord × Nat)
  | 0, pos => .ok ([], pos)
  | n + 1, pos => do
    let (rr, pos1) ← parse_rr buf fuel pos
    let (rest, posEnd) ← parse_rrs buf fuel n pos1
    .ok (rr :: rest, posEnd)

namespace DnsMessage

/-- Constructor `DnsMessage::new` of the source: hardcoded id `0x1234`, flags
`0x0100`, question count 1, zero record counts, `qtype` 28, `qclass` 1,
empty record lists. -/
def new (url : List Nat) : DnsMessage :=
  ⟨⟨0x1234, 0x0100, 1, 0, 0, 0⟩, ⟨url, 28, 1⟩, [], [], []⟩

/-- Encoder `DnsMessage::to_bytes` of the source: the six header fields big-endian,
then one length byte and the raw bytes per dot-separated label of `qname`,
a zero terminator, and `qtype`/`qclass` big-endian. -/
def to_bytes (msg : DnsMessage) : List Nat :=
  be16 msg.header.identification ++ be16 msg.header.flags ++
    be16 msg.header.no_of_questions ++ be16 msg.header.no_of_answers_rr ++
    be16 msg.header.no_of_authority_rr ++ be16 msg.header.no_of_additional_rr ++
    encodeLabels (splitDot msg.question.qname) ++ [0] ++
    be16 msg.question.qtype ++ be16 msg.question.qclass

/-- Decoder `DnsMessage::from_bytes` of the source: reads the 12-byte header, then
count-many questions and records, and fills the single question slot with
the first parsed question or, when none was parsed, the sentinel
`DnsQuestion { qname: "", qtype: 0, qclass: 0 }` (`unwrap_or`). -/
def from_bytes (buf : List Nat) (fuel : Nat) : RunRes DnsMessage := do
  let identification ← read_u16 buf 0
  let flags ← read_u16 buf 2
  let no_of_questions ← read_u16 buf 4
  let no_of_answers_rr ← read_u16 buf 6
  let no_of_authority_rr ← read_u16 buf 8
  let no_of_additional_rr ← read_u16 buf 10
  let (questions, pos1) ← parse_questions buf fuel no_of_questions 12
  let (answers, pos2) ← parse_rrs buf fuel no_of_answers_rr pos1
  let (authority, pos3) ← parse_rrs buf fuel no_of_authority_rr pos2
  let (additional, _) ← parse_rrs buf fuel no_of_additional_rr pos3
  .ok ⟨⟨identification, flags, no_of_questions, no_of_answers_rr,
        no_of_authority_rr, no_of_additional_rr⟩,
       questions.headD ⟨[], 0, 0⟩, answers, authority, additional⟩

end DnsMessage

/-- The UTF-8 bytes of the string "example.com". -/
def exampleComBytes : List Nat :=
  [101, 120, 97, 109, 112, 108, 101, 46, 99, 111, 109]

/-- The spec's invariant on label sequences: every dot-separated label of
the name is non-empty and at most 63 octets. -/
def validName (q : List Nat) : Prop :=
  ∀ l ∈ splitDot q, 0 < l.length ∧ l.length ≤ 63

instance (q : List Nat) : Decidable (validName q) :=
  inferInstanceAs (Decidable (∀ l ∈ splitDot q, _ ∧ _))

example : splitDot exampleComBytes =
    [[101, 120, 97, 109, 112, 108, 101], [99, 111, 109]] := by decide

example : joinDots (splitDot exampleComBytes) = exampleComBytes := by decide

example : encodeLabels (splitDot exampleComBytes) =
    [7, 101, 120, 97, 109, 112, 108, 101, 3, 99, 111, 109] := by decide

/-! ### Helper lemmas about the string splitting and joining of the source -/

theorem splitDot_ne_nil (l : List Nat) : splitDot l ≠ [] := by
  match l with
  | [] => simp [splitDot]
  | b :: rest =>
    simp only [splitDot]
    split
    · simp
    · split <;> simp

theorem joinDots_splitDot (l : List Nat) : joinDots (splitDot l) = l := by
  induction l with
  | nil => rfl
  | cons b rest ih =>
    by_cases hb : b = 46
    · subst hb
      have h1 : splitDot (46 :: rest) = [] :: splitDot rest := by simp [splitDot]
      rw [h1]
      cases hsp : splitDot rest with
      | nil => exact absurd hsp (splitDot_ne_nil rest)
      | cons p ps =>
        rw [hsp] at ih
        exact congrArg (List.cons 46) ih
    · cases hsp : splitDot rest with
      | nil => exact absurd hsp (splitDot_ne_nil rest)
      | cons p ps =>
        have h1 : splitDot (b :: rest) = (b :: p) :: ps := by
          simp only [splitDot, if_neg hb, hsp]
        rw [h1]
        rw [hsp] at ih
        cases ps with
        | nil => exact congrArg (List.cons b) ih
        | cons q ps2 => exact congrArg (List.cons b) ih

theorem encodeLabels_splitDot_length (q : List Nat) :
    (encodeLabels (splitDot q)).length = q.length + 1 := by
  induction q with
  | nil => rfl
  | cons b rest ih =>
    by_cases hb : b = 46
    · subst hb
      have h1 : splitDot (46 :: rest) = [] :: splitDot rest := by simp [splitDot]
      rw [h1]
      rw [show encodeLabels ([] :: splitDot rest) =
        0 :: encodeLabels (splitDot rest) from rfl]
      rw [List.length_cons, ih]
      simp
    · cases hsp : splitDot rest with
      | nil => exact absurd hsp (splitDot_ne_nil rest)
      | cons p ps =>
        have h1 : splitDot (b :: rest) = (b :: p) :: ps := by
          simp only [splitDot, if_neg hb, hsp]
        rw [h1]
        rw [hsp] at ih
        rw [show encodeLabels ((b :: p) :: ps) =
          ((b :: p).length % 256) :: ((b :: p) ++ encodeLabels ps) from rfl]
        rw [show encodeLabels (p :: ps) =
          (p.length % 256) :: (p ++ encodeLabels ps) from rfl] at ih
        simp only [List.length_cons, List.length_append] at ih ⊢
        omega

theorem to_bytes_length (msg : DnsMessage) :
    msg.to_bytes.length = 18 + msg.question.qname.length := by
  simp only [DnsMessage.to_bytes, List.length_append, be16, List.length_cons,
    List.length_nil, encodeLabels_splitDot_length]
  omega

/-! ### Helper lemmas about reading from an appended buffer -/

theorem readByte_cons_succ (b : Nat) (rest : List Nat) (n : Nat) :
    readByte (b :: rest) (n + 1) = readByte rest n := rfl

theorem readByte_append (pre rest : List Nat) (k : Nat) :
    readByte (pre ++ rest) (pre.length + k) = readByte rest k := by
  induction pre with
  | nil => simp
  | cons a pre ih =>
    rw [List.cons_append, List.length_cons,
      show pre.length + 1 + k = (pre.length + k) + 1 by omega,
      readByte_cons_succ]
    exact ih

theorem readByte_append_zero (pre : List Nat) (b : Nat) (rest : List Nat) :
    readByte (pre ++ b :: rest) pre.length = .ok b := by
  have h := readByte_append pre (b :: rest) 0
  rw [Nat.add_zero] at h
  rw [h]
  rfl

theorem read_u16_cons (hi lo : Nat) (rest : List Nat) :
    read_u16 (hi :: lo :: rest) 0 = .ok (hi * 256 + lo) := rfl

theorem read_u16_append (pre : List Nat) (hi lo : Nat) (rest : List Nat) :
    read_u16 (pre ++ hi :: lo :: rest) pre.length = .ok (hi * 256 + lo) := by
  unfold read_u16
  rw [readByte_append_zero]
  have h2 : readByte (pre ++ hi :: lo :: rest) (pre.length + 1) = .ok lo :=
    readByte_append pre (hi :: lo :: rest) 1
  rw [RunRes.monad_bind_eq_bind, RunRes.bind_ok, RunRes.monad_bind_eq_bind, h2]
  rfl

theorem drop_append_len (pre rest : List Nat) (k : Nat) :
    (pre ++ rest).drop (pre.length + k) = rest.drop k := by
  induction pre with
  | nil => simp
  | cons a pre ih =>
    rw [List.cons_append, List.length_cons,
      show pre.length + 1 + k = (pre.length + k) + 1 by omega,
      List.drop_succ_cons]
    exact ih

theorem take_append_len (l rest : List Nat) : (l ++ rest).take l.length = l := by
  induction l with
  | nil => simp
  | cons a l ih => rw [List.cons_append, List.length_cons, List.take_succ_cons, ih]

theorem RunRes.bind_eq_ok {α β : Type} {x : RunRes α} {f : α → RunRes β} {b : β}
    (h : RunRes.bind x f = .ok b) : ∃ a, x = .ok a ∧ f a = .ok b := by
  cases x with
  | ok a => exact ⟨a, rfl, h⟩
  | panicked => exact RunRes.noConfusion (RunRes.bind_panicked f ▸ h)
  | fuelOut => exact RunRes.noConfusion (RunRes.bind_fuelOut f ▸ h)

/-- Unfolding of `parse_questions` on a positive count, as one explicit bind chain
(definitionaly equal to the definition). -/
theorem parse_questions_succ (buf : List Nat) (fuel n pos : Nat) :
    parse_questions buf fuel (n + 1) pos =
      RunRes.bind (parse_qname buf fuel pos) (fun qp =>
      RunRes.bind (read_u16 buf qp.2) (fun qtype =>
      RunRes.bind (read_u16 buf (qp.2 + 2)) (fun qclass =>
      RunRes.bind (parse_questions buf fuel n (qp.2 + 4)) (fun rp =>
      .ok (⟨qp.1, qtype, qclass⟩ :: rp.1, rp.2))))) := rfl

/-- Unfolding of `parse_rrs` on a positive count, as an explicit bind chain. -/
theorem parse_rrs_succ (buf : List Nat) (fuel n pos : Nat) :
    parse_rrs buf fuel (n + 1) pos =
      RunRes.bind (parse_rr buf fuel pos) (fun rp =>
      RunRes.bind (parse_rrs buf fuel n rp.2) (fun sp =>
      .ok (rp.1 :: sp.1, sp.2))) := rfl

/-- Unfolding of `from_bytes`, as one explicit bind chain (definitionally equal
to the definition). -/
theorem from_bytes_unfold (buf : List Nat) (fuel : Nat) :
    DnsMessage.from_bytes buf fuel =
      RunRes.bind (read_u16 buf 0) (fun identification =>
      RunRes.bind (read_u16 buf 2) (fun flags =>
      RunRes.bind (read_u16 buf 4) (fun nq =>
      RunRes.bind (read_u16 buf 6) (fun na =>
      RunRes.bind (read_u16 buf 8) (fun ns =>
      RunRes.bind (read_u16 buf 10) (fun nr =>
      RunRes.bind (parse_questions buf fuel nq 12) (fun qp =>
      RunRes.bind (parse_rrs buf fuel na qp.2) (fun ap =>
      RunRes.bind (parse_rrs buf fuel ns ap.2) (fun up =>
      RunRes.bind (parse_rrs buf fuel nr up.2) (fun dp =>
      .ok ⟨⟨identification, flags, nq, na, ns, nr⟩,
           qp.1.headD ⟨[], 0, 0⟩, ap.1, up.1, dp.1⟩)))))))))) := rfl

/-- Inversion of a successful decode: the header reads, the question parse
and the three record parses all succeeded, and the message is assembled
from their results exactly as in the source (`unwrap_or` sentinel for the
question). -/
theorem from_bytes_ok_inv {buf : List Nat} {fuel : Nat} {m : DnsMessage}
    (h : DnsMessage.from_bytes buf fuel = .ok m) :
    ∃ idn fl nq na ns nr qs pos1 ans pos2 auth pos3 add pos4,
      read_u16 buf 0 = .ok idn ∧ read_u16 buf 2 = .ok fl ∧
      read_u16 buf 4 = .ok nq ∧ read_u16 buf 6 = .ok na ∧
      read_u16 buf 8 = .ok ns ∧ read_u16 buf 10 = .ok nr ∧
      parse_questions buf fuel nq 12 = .ok (qs, pos1) ∧
      parse_rrs buf fuel na pos1 = .ok (ans, pos2) ∧
      parse_rrs buf fuel ns pos2 = .ok (auth, pos3) ∧
      parse_rrs buf fuel nr pos3 = .ok (add, pos4) ∧
      m = ⟨⟨idn, fl, nq, na, ns, nr⟩, qs.headD ⟨[], 0, 0⟩, ans, auth, add⟩ := by
  rw [from_bytes_unfold] at h
  obtain ⟨idn, h1, h⟩ := RunRes.bind_eq_ok h
  obtain ⟨fl, h2, h⟩ := RunRes.bind_eq_ok h
  obtain ⟨nq, h3, h⟩ := RunRes.bind_eq_ok h
  obtain ⟨na, h4, h⟩ := RunRes.bind_eq_ok h
  obtain ⟨ns, h5, h⟩ := RunRes.bind_eq_ok h
  obtain ⟨nr, h6, h⟩ := RunRes.bind_eq_ok h
  obtain ⟨⟨qs, pos1⟩, h7, h⟩ := RunRes.bind_eq_ok h
  obtain ⟨⟨ans, pos2⟩, h8, h⟩ := RunRes.bind_eq_ok h
  obtain ⟨⟨auth, pos3⟩, h9, h⟩ := RunRes.bind_eq_ok h
  obtain ⟨⟨add, pos4⟩, h10, h⟩ := RunRes.bind_eq_ok h
  have hm : RunRes.ok (⟨⟨idn, fl, nq, na, ns, nr⟩,
      qs.headD ⟨[], 0, 0⟩, ans, auth, add⟩ : DnsMessage) = RunRes.ok m := h
  injection hm with hm2
  exact ⟨idn, fl, nq, na, ns, nr, qs, pos1, ans, pos2, auth, pos3, add, pos4,
    h1, h2, h3, h4, h5, h6, h7, h8, h9, h10, hm2.symm⟩

/-- A successful `parse_rrs` on count `n` yields exactly `n` records. -/
theorem parse_rrs_length {buf : List Nat} {fuel : Nat} :
    ∀ n pos l p, parse_rrs buf fuel n pos = .ok (l, p) → l.length = n := by
  intro n
  induction n with
  | zero =>
    intro pos l p h
    have h0 : RunRes.ok (([] : List ResourceRecord), pos) = .ok (l, p) := h
    injection h0 with h1
    injection h1 with ha hb
    rw [← ha]
    rfl
  | succ n ih =>
    intro pos l p h
    rw [parse_rrs_succ] at h
    obtain ⟨⟨rr, pos1⟩, h1, h⟩ := RunRes.bind_eq_ok h
    obtain ⟨⟨rest, pend⟩, h2, h⟩ := RunRes.bind_eq_ok h
    have h0 : RunRes.ok ((rr :: rest, pend) : List ResourceRecord × Nat) = .ok (l, p) := h
    injection h0 with h1b
    injection h1b with ha hb
    rw [← ha, List.length_cons, ih pos1 rest pend h2]

theorem land192_eq_zero {a : Nat} (h : a < 64) : a &&& 192 = 0 := by
  apply Nat.eq_of_testBit_eq
  intro i
  rw [Nat.testBit_and, Nat.zero_testBit]
  rcases Nat.lt_or_ge i 6 with hi | hi
  · have h192 : Nat.testBit 192 i = false := by interval_cases i <;> decide
    rw [h192, Bool.and_false]
  · have ha : a < 2 ^ i := lt_of_lt_of_le h (by
      calc (64 : Nat) = 2 ^ 6 := rfl
      _ ≤ 2 ^ i := Nat.pow_le_pow_right (by omega) hi)
    rw [Nat.testBit_lt_two_pow ha, Bool.false_and]

/-! ### Concrete buffers used as failing inputs and counterexamples -/

/-- Header declaring one question, followed at offset 12 by the compression
pointer `0xC0 0x0C`, whose 14-bit offset is 12 — the position of the
pointer byte itself. -/
def selfPtrBuf : List Nat := [0, 0, 0, 0, 0, 1, 0, 0, 0, 0, 0, 0, 192, 12]

/-- Header declaring `ancount = 2` (and no questions), followed by exactly
one well-formed resource record (root name, type 1, class 1, ttl 0,
rdlength 0); the second declared record is missing. -/
def ancountTwoBuf : List Nat :=
  [0, 0, 0, 0, 0, 0, 0, 2, 0, 0, 0, 0, 0, 0, 1, 0, 1, 0, 0, 0, 0, 0, 0]

/-- A bare 12-byte header with all fields zero (question count 0). -/
def zeroCountBuf : List Nat := [0, 0, 0, 0, 0, 0, 0, 0, 0, 0, 0, 0]

/-- Header declaring two questions, followed by two well-formed questions
(root name, type 1, class 1 each). -/
def twoQuestionBuf : List Nat :=
  [0, 0, 0, 0, 0, 2, 0, 0, 0, 0, 0, 0, 0, 0, 1, 0, 1, 0, 0, 1, 0, 1]

/-- On `selfPtrBuf`, the name-parsing loop starting at position 12 jumps
back to position 12 on every iteration and exhausts any fuel bound,
whatever the loop state. -/
theorem selfPtr_loop (fuel : Nat) :
    ∀ (j : Bool) (op : Nat) (acc : List (List Nat)),
    parse_qname_loop selfPtrBuf fuel 12 j op acc = .fuelOut := by
  induction fuel with
  | zero => intro j op acc; rfl
  | succ f ih =>
    intro j op acc
    have hstep : parse_qname_loop selfPtrBuf (f + 1) 12 j op acc =
        parse_qname_loop selfPtrBuf f 12 true (if j then op else 14) acc := rfl
    rw [hstep]
    exact ih true (if j then op else 14) acc

/-- Claim C1: the claim asserts that a compression pointer targeting an
offset ≥ its own position (here: a pointer at offset 12 targeting offset
12) makes decode terminate with a `MalformedPointer` error.  The code has
no such error and does not terminate: for every fuel bound the decoder is
still looping, i.e. `decode` diverges on this buffer. -/
theorem c1_self_pointer_diverges (fuel : Nat) :
    DnsMessage.from_bytes selfPtrBuf fuel = .fuelOut := by
  have hq : parse_qname_loop selfPtrBuf fuel 12 false 0 [] = .fuelOut :=
    selfPtr_loop fuel false 0 []
  have hpq : parse_questions selfPtrBuf fuel 1 12 = .fuelOut := by
    have h := parse_questions_succ selfPtrBuf fuel 0 12
    rw [parse_qname] at h
    rw [hq] at h
    rw [RunRes.bind_fuelOut] at h
    exact h
  rw [from_bytes_unfold]
  rw [show read_u16 selfPtrBuf 0 = .ok 0 from rfl]
  rw [RunRes.bind_ok]
  rw [show read_u16 selfPtrBuf 2 = .ok 0 from rfl]
  rw [RunRes.bind_ok]
  rw [show read_u16 selfPtrBuf 4 = .ok 1 from rfl]
  rw [RunRes.bind_ok]
  rw [show read_u16 selfPtrBuf 6 = .ok 0 from rfl]
  rw [RunRes.bind_ok]
  rw [show read_u16 selfPtrBuf 8 = .ok 0 from rfl]
  rw [RunRes.bind_ok]
  rw [show read_u16 selfPtrBuf 10 = .ok 0 from rfl]
  rw [RunRes.bind_ok]
  rw [hpq]
  rw [RunRes.bind_fuelOut]

/-- Claim C2: the claim asserts that a header declaring more records than
the buffer holds (ancount = 2 with one record present) makes decode fail
with the typed error `Truncated` and never abort the process.  The code
panics instead (out-of-bounds index while parsing the second record's
name), for every amount of fuel that lets the first record be parsed;
`from_bytes` returns the bare message type and has no error channel at
all. -/
theorem c2_truncated_panics (fuel : Nat) :
    DnsMessage.from_bytes ancountTwoBuf (fuel + 1) = .panicked := rfl

/-- Claim C5, counterexample: a buffer declaring and containing two
questions decodes successfully into a message whose header count is 2 but
which retains a single question entry (the first); the second parsed
question is dropped, so the question count does not equal the number of
question entries present in the result. -/
theorem c5_counterexample :
    DnsMessage.from_bytes twoQuestionBuf 1 =
      .ok ⟨⟨0, 0, 2, 0, 0, 0⟩, ⟨[], 1, 1⟩, [], [], []⟩ ∧
    (2 : Nat) ≠ 1 := ⟨rfl, by decide⟩

/-- Claim C5 (amended): on every buffer where decode succeeds, the three
record-section counts of the returned message equal the lengths of the
corresponding parsed lists; the question count has no such guarantee
because the message holds exactly one question slot. -/
theorem c5_record_counts (buf : List Nat) (fuel : Nat) (m : DnsMessage)
    (h : DnsMessage.from_bytes buf fuel = .ok m) :
    m.answers.length = m.header.no_of_answers_rr ∧
    m.authority.length = m.header.no_of_authority_rr ∧
    m.additional.length = m.header.no_of_additional_rr := by
  obtain ⟨idn, fl, nq, na, ns, nr, qs, pos1, ans, pos2, auth, pos3, add, pos4,
    _, _, _, _, _, _, _, h8, h9, h10, hm⟩ := from_bytes_ok_inv h
  subst hm
  exact ⟨parse_rrs_length na pos1 ans pos2 h8,
    parse_rrs_length ns pos2 auth pos3 h9,
    parse_rrs_length nr pos3 add pos4 h10⟩

/-- Witness for C5's amended theorem at the two-question buffer. -/
theorem c5_record_counts_witness :
    (⟨⟨0, 0, 2, 0, 0, 0⟩, ⟨[], 1, 1⟩, [], [], []⟩ : DnsMessage).answers.length =
      (⟨⟨0, 0, 2, 0, 0, 0⟩, ⟨[], 1, 1⟩, [], [], []⟩ : DnsMessage).header.no_of_answers_rr ∧
    (⟨⟨0, 0, 2, 0, 0, 0⟩, ⟨[], 1, 1⟩, [], [], []⟩ : DnsMessage).authority.length =
      (⟨⟨0, 0, 2, 0, 0, 0⟩, ⟨[], 1, 1⟩, [], [], []⟩ : DnsMessage).header.no_of_authority_rr ∧
    (⟨⟨0, 0, 2, 0, 0, 0⟩, ⟨[], 1, 1⟩, [], [], []⟩ : DnsMessage).additional.length =
      (⟨⟨0, 0, 2, 0, 0, 0⟩, ⟨[], 1, 1⟩, [], [], []⟩ : DnsMessage).header.no_of_additional_rr :=
  c5_record_counts twoQuestionBuf 1 ⟨⟨0, 0, 2, 0, 0, 0⟩, ⟨[], 1, 1⟩, [], [], []⟩ rfl

/-- Claim C7, counterexample: a buffer whose header declares zero
questions decodes successfully, and the single question slot of the
result is the sentinel question (empty name, type 0, class 0) — not an
absent/Option-like state, which the message type does not even have. -/
theorem c7_counterexample :
    DnsMessage.from_bytes zeroCountBuf 0 =
      .ok ⟨⟨0, 0, 0, 0, 0, 0⟩, ⟨[], 0, 0⟩, [], [], []⟩ := rfl

/-- Claim C7 (amended): whenever decode succeeds on a buffer declaring
zero questions, the question slot of the result is the sentinel
`DnsQuestion` with empty name and zeroed type/class, substituted by the
source's `unwrap_or`. -/
theorem c7_sentinel_question (buf : List Nat) (fuel : Nat) (m : DnsMessage)
    (h : DnsMessage.from_bytes buf fuel = .ok m)
    (h0 : m.header.no_of_questions = 0) :
    m.question = ⟨[], 0, 0⟩ := by
  obtain ⟨idn, fl, nq, na, ns, nr, qs, pos1, ans, pos2, auth, pos3, add, pos4,
    _, _, _, _, _, _, h7, _, _, _, hm⟩ := from_bytes_ok_inv h
  subst hm
  have hnq : nq = 0 := h0
  subst hnq
  have h7b : RunRes.ok (([] : List DnsQuestion), 12) = .ok (qs, pos1) := by
    rw [← h7]
    rfl
  injection h7b with hqp
  injection hqp with ha hb
  rw [← ha]
  rfl

/-- Witness for C7's amended theorem at the zero-count buffer. -/
theorem c7_sentinel_question_witness :
    (⟨⟨0, 0, 0, 0, 0, 0⟩, ⟨[], 0, 0⟩, [], [], []⟩ : DnsMessage).question = ⟨[], 0, 0⟩ :=
  c7_sentinel_question zeroCountBuf 0
    ⟨⟨0, 0, 0, 0, 0, 0⟩, ⟨[], 0, 0⟩, [], [], []⟩ rfl rfl

/-- Claim C8, counterexample: a freshly constructed outbound message does
not have question count 0 — `DnsMessage::new` sets it to 1. -/
theorem c8_counterexample : (DnsMessage.new []).header.no_of_questions ≠ 0 := by
  decide

/-- Claim C8 (amended): for every caller-supplied name, `DnsMessage::new`
produces a message whose question count is 1, whose answer, authority and
additional counts are 0, and whose three record lists are empty. -/
theorem c8_new_counts (url : List Nat) :
    (DnsMessage.new url).header.no_of_questions = 1 ∧
    (DnsMessage.new url).header.no_of_answers_rr = 0 ∧
    (DnsMessage.new url).header.no_of_authority_rr = 0 ∧
    (DnsMessage.new url).header.no_of_additional_rr = 0 ∧
    (DnsMessage.new url).answers = [] ∧
    (DnsMessage.new url).authority = [] ∧
    (DnsMessage.new url).additional = [] :=
  ⟨rfl, rfl, rfl, rfl, rfl, rfl, rfl⟩

/-- Claim C10: the encoder's output always has length 18 plus the byte
length of the question name — 12 header bytes, one length byte per
dot-separated part plus the part's bytes, one terminator byte, and 4
bytes of type and class — independently of the header count values and of
whether the labels satisfy the 1–63 octet invariant. -/
theorem c10_to_bytes_length (msg : DnsMessage) :
    msg.to_bytes.length = 18 + msg.question.qname.length :=
  to_bytes_length msg

/-- One unfolding of the name-parsing loop on positive fuel, as an
explicit bind chain (definitionally equal to the definition). -/
theorem parse_qname_loop_succ (buf : List Nat) (fuel pos : Nat) (jumped : Bool)
    (op : Nat) (labels : List (List Nat)) :
    parse_qname_loop buf (fuel + 1) pos jumped op labels =
      RunRes.bind (readByte buf pos) (fun byte =>
        if byte &&& 192 = 192 then
          RunRes.bind (readByte buf (pos + 1)) (fun second_byte =>
            parse_qname_loop buf fuel (((byte ^^^ 192) <<< 8) ||| second_byte) true
              (if jumped then op else pos + 2) labels)
        else if byte = 0 then
          .ok (joinDots labels, if jumped then op else pos + 1)
        else
          if pos + 1 + byte ≤ buf.length then
            parse_qname_loop buf fuel (pos + 1 + byte) jumped op
              (labels ++ [(buf.drop (pos + 1)).take byte])
          else .panicked) := rfl

/-- Running the name-parsing loop at the start of a well-formed encoded
label sequence (each label non-empty and ≤ 63 octets) consumes exactly
the encoded labels and the zero terminator, appends the labels to the
accumulator, and returns the recorded `original_pos` when a jump happened
before, or the position one past the terminator otherwise. -/
theorem parse_qname_loop_encodes (labels : List (List Nat)) :
    ∀ (pre post : List Nat) (fuel : Nat) (jumped : Bool) (op : Nat)
      (acc : List (List Nat)),
    (∀ l ∈ labels, 0 < l.length ∧ l.length ≤ 63) →
    labels.length + 1 ≤ fuel →
    parse_qname_loop (pre ++ (encodeLabels labels ++ ([0] ++ post))) fuel
        pre.length jumped op acc =
      .ok (joinDots (acc ++ labels),
        if jumped then op else pre.length + (encodeLabels labels).length + 1) := by
  induction labels with
  | nil =>
    intro pre post fuel jumped op acc hl hf
    obtain ⟨f, rfl⟩ : ∃ f, fuel = f + 1 := ⟨fuel - 1, by omega⟩
    rw [show encodeLabels [] = [] from rfl, List.nil_append,
      show ([0] ++ post : List Nat) = 0 :: post from rfl]
    rw [parse_qname_loop_succ, readByte_append_zero pre 0 post, RunRes.bind_ok]
    rw [if_neg (by decide : ¬ ((0 : Nat) &&& 192 = 192)), if_pos rfl,
      List.append_nil]
    cases jumped <;> rfl
  | cons l ls ih =>
    intro pre post fuel jumped op acc hl hf
    obtain ⟨f, rfl⟩ : ∃ f, fuel = f + 1 := ⟨fuel - 1, by omega⟩
    have hl0 : 0 < l.length := (hl l (List.mem_cons_self l ls)).1
    have hl63 : l.length ≤ 63 := (hl l (List.mem_cons_self l ls)).2
    have henc : encodeLabels (l :: ls) = l.length :: (l ++ encodeLabels ls) := by
      rw [show encodeLabels (l :: ls) =
        (l.length % 256) :: (l ++ encodeLabels ls) from rfl,
        Nat.mod_eq_of_lt (by omega)]
    rw [henc, List.cons_append]
    rw [parse_qname_loop_succ, readByte_append_zero pre l.length _, RunRes.bind_ok]
    have hcond : ¬ (l.length &&& 192 = 192) := by
      rw [land192_eq_zero (by omega : l.length < 64)]
      decide
    rw [if_neg hcond, if_neg (by omega : ¬ (l.length = 0))]
    have hlen : pre.length + 1 + l.length ≤
        (pre ++ l.length :: ((l ++ encodeLabels ls) ++ ([0] ++ post))).length := by
      simp [List.length_append]
      omega
    rw [if_pos hlen]
    have hdrop : (pre ++ l.length ::
        ((l ++ encodeLabels ls) ++ ([0] ++ post))).drop (pre.length + 1) =
        (l ++ encodeLabels ls) ++ ([0] ++ post) := by
      rw [drop_append_len pre _ 1]
      rfl
    rw [hdrop, List.append_assoc l (encodeLabels ls) ([0] ++ post),
      take_append_len l (encodeLabels ls ++ ([0] ++ post))]
    have hbuf : pre ++ (l.length :: (l ++ (encodeLabels ls ++ ([0] ++ post)))) =
        (pre ++ l.length :: l) ++ (encodeLabels ls ++ ([0] ++ post)) := by
      simp
    have hpos : pre.length + 1 + l.length = (pre ++ l.length :: l).length := by
      simp [List.length_append]
      omega
    rw [hbuf, hpos]
    rw [ih (pre ++ l.length :: l) post f jumped op (acc ++ [l])
      (fun x hx => hl x (List.mem_cons_of_mem l hx))
      (by simp only [List.length_cons] at hf ⊢; omega)]
    simp only [RunRes.ok.injEq, Prod.mk.injEq]
    refine ⟨by rw [List.append_assoc, List.singleton_append], ?_⟩
    cases jumped with
    | false =>
      simp only [Bool.false_eq_true, if_false, List.length_append, List.length_cons]
      omega
    | true => rfl

theorem drop_append_self (pre rest : List Nat) :
    (pre ++ rest).drop pre.length = rest := by
  have h := drop_append_len pre rest 0
  rw [Nat.add_zero] at h
  rw [h, List.drop_zero]

/-- The wire encoding of the name "example.com": `07 example 03 com 00`. -/
def exampleComEncoded : List Nat :=
  [7, 101, 120, 97, 109, 112, 108, 101, 3, 99, 111, 109, 0]

/-- Claim C4: with the label sequence of "example.com" stored at offset 20
(after an arbitrary 20-byte prefix) and a name field consisting of the two
pointer bytes `0xC0 0x14` at position `33 + |mid|`, name parsing follows
the 14-bit offset `(0xC0 ^ 0xC0) << 8 | 0x14 = 20`, decodes the name
"example.com", and returns the cursor exactly 2 bytes past the pointer
(`35 + |mid|`), not a position inside the pointed-to region. -/
theorem c4_pointer_resolution (pre mid post : List Nat) (fuel : Nat)
    (hpre : pre.length = 20) (hfuel : 4 ≤ fuel) :
    parse_qname (pre ++ (exampleComEncoded ++ (mid ++ (192 :: 20 :: post)))) fuel
      (33 + mid.length) =
    .ok (exampleComBytes, 35 + mid.length) := by
  obtain ⟨f, rfl⟩ : ∃ f, fuel = f + 1 := ⟨fuel - 1, by omega⟩
  have hb1 : readByte (pre ++ (exampleComEncoded ++ (mid ++ (192 :: 20 :: post))))
      (33 + mid.length) = .ok 192 := by
    rw [show pre ++ (exampleComEncoded ++ (mid ++ (192 :: 20 :: post))) =
      (pre ++ (exampleComEncoded ++ mid)) ++ (192 :: 20 :: post) from by simp]
    rw [show 33 + mid.length = (pre ++ (exampleComEncoded ++ mid)).length from by
      simp [exampleComEncoded, hpre]
      omega]
    exact readByte_append_zero _ 192 (20 :: post)
  have hb2 : readByte (pre ++ (exampleComEncoded ++ (mid ++ (192 :: 20 :: post))))
      (33 + mid.length + 1) = .ok 20 := by
    rw [show pre ++ (exampleComEncoded ++ (mid ++ (192 :: 20 :: post))) =
      (pre ++ (exampleComEncoded ++ mid)) ++ (192 :: 20 :: post) from by simp]
    rw [show 33 + mid.length = (pre ++ (exampleComEncoded ++ mid)).length from by
      simp [exampleComEncoded, hpre]
      omega]
    exact readByte_append (pre ++ (exampleComEncoded ++ mid)) (192 :: 20 :: post) 1
  unfold parse_qname
  rw [parse_qname_loop_succ, hb1, RunRes.bind_ok,
    if_pos (by decide : (192 : Nat) &&& 192 = 192), hb2, RunRes.bind_ok,
    show (((192 : Nat) ^^^ 192) <<< 8) ||| 20 = 20 from by decide,
    if_neg (by decide : ¬ ((false : Bool) = true)),
    show 33 + mid.length + 2 = 35 + mid.length from by omega]
  have henc := parse_qname_loop_encodes
    [[101, 120, 97, 109, 112, 108, 101], [99, 111, 109]] pre
    (mid ++ (192 :: 20 :: post)) f true (35 + mid.length) []
    (by decide) (by simp only [List.length_cons, List.length_nil]; omega)
  rw [show encodeLabels [[101, 120, 97, 109, 112, 108, 101], [99, 111, 109]] ++
      ([0] ++ (mid ++ (192 :: 20 :: post))) =
      exampleComEncoded ++ (mid ++ (192 :: 20 :: post)) from by
    rw [show encodeLabels [[101, 120, 97, 109, 112, 108, 101], [99, 111, 109]] =
      [7, 101, 120, 97, 109, 112, 108, 101, 3, 99, 111, 109] from rfl]
    simp [exampleComEncoded]] at henc
  rw [if_pos rfl] at henc
  rw [show joinDots ([] ++ [[101, 120, 97, 109, 112, 108, 101], [99, 111, 109]]) =
    exampleComBytes from rfl] at henc
  rw [hpre] at henc
  exact henc

/-- Witness for C4 with a zero 20-byte prefix, empty mid and tail, and
fuel 4. -/
theorem c4_pointer_resolution_witness :
    parse_qname (List.replicate 20 0 ++ (exampleComEncoded ++
      ([] ++ (192 :: 20 :: [])))) 4 (33 + ([] : List Nat).length) =
    .ok (exampleComBytes, 35 + ([] : List Nat).length) :=
  c4_pointer_resolution (List.replicate 20 0) [] [] 4 (by decide) (by decide)

/-- Decoding a buffer that consists of a 12-byte header with question
count 1 and zero record counts, a well-formed encoded label sequence, and
big-endian type and class fields, yields exactly one question holding the
joined labels, the type and the class. -/
theorem decode_encoded_question (c1 c2 c3 c4 qt qc fuel : Nat)
    (labels : List (List Nat)) (BUF : List Nat)
    (hBUF : BUF = c1 :: c2 :: c3 :: c4 :: 0 :: 1 :: 0 :: 0 :: 0 :: 0 :: 0 :: 0 ::
      (encodeLabels labels ++ ([0] ++ (be16 qt ++ be16 qc))))
    (hlab : ∀ l ∈ labels, 0 < l.length ∧ l.length ≤ 63)
    (hfuel : labels.length + 1 ≤ fuel)
    (hqt : qt < 65536) (hqc : qc < 65536) :
    DnsMessage.from_bytes BUF fuel =
      .ok ⟨⟨c1 * 256 + c2, c3 * 256 + c4, 1, 0, 0, 0⟩,
           ⟨joinDots labels, qt, qc⟩, [], [], []⟩ := by
  have hr0 : read_u16 BUF 0 = .ok (c1 * 256 + c2) := by rw [hBUF]; rfl
  have hr2 : read_u16 BUF 2 = .ok (c3 * 256 + c4) := by rw [hBUF]; rfl
  have hr4 : read_u16 BUF 4 = .ok 1 := by rw [hBUF]; rfl
  have hr6 : read_u16 BUF 6 = .ok 0 := by rw [hBUF]; rfl
  have hr8 : read_u16 BUF 8 = .ok 0 := by rw [hBUF]; rfl
  have hr10 : read_u16 BUF 10 = .ok 0 := by rw [hBUF]; rfl
  have hq1 : parse_qname BUF fuel 12 =
      .ok (joinDots labels, 12 + (encodeLabels labels).length + 1) := by
    rw [hBUF]
    exact parse_qname_loop_encodes labels [c1, c2, c3, c4, 0, 1, 0, 0, 0, 0, 0, 0]
      (be16 qt ++ be16 qc) fuel false 0 [] hlab hfuel
  have hqt16 : read_u16 BUF (12 + (encodeLabels labels).length + 1) = .ok qt := by
    have h1 := read_u16_append
      (c1 :: c2 :: c3 :: c4 :: 0 :: 1 :: 0 :: 0 :: 0 :: 0 :: 0 :: 0 ::
        (encodeLabels labels ++ [0]))
      (qt / 256 % 256) (qt % 256) ((qc / 256 % 256) :: (qc % 256) :: [])
    rw [show (c1 :: c2 :: c3 :: c4 :: 0 :: 1 :: 0 :: 0 :: 0 :: 0 :: 0 :: 0 ::
        (encodeLabels labels ++ [0]) : List Nat) ++
        ((qt / 256 % 256) :: (qt % 256) :: (qc / 256 % 256) :: (qc % 256) :: []) =
        c1 :: c2 :: c3 :: c4 :: 0 :: 1 :: 0 :: 0 :: 0 :: 0 :: 0 :: 0 ::
        (encodeLabels labels ++ ([0] ++ (be16 qt ++ be16 qc))) from by
      simp [be16]] at h1
    rw [show (c1 :: c2 :: c3 :: c4 :: 0 :: 1 :: 0 :: 0 :: 0 :: 0 :: 0 :: 0 ::
        (encodeLabels labels ++ [0]) : List Nat).length =
        12 + (encodeLabels labels).length + 1 from by
      simp only [List.length_cons, List.length_append, List.length_nil]
      omega] at h1
    rw [show qt / 256 % 256 * 256 + qt % 256 = qt from by omega] at h1
    rw [hBUF]
    exact h1
  have hqc16 : read_u16 BUF (12 + (encodeLabels labels).length + 1 + 2) = .ok qc := by
    have h1 := read_u16_append
      (c1 :: c2 :: c3 :: c4 :: 0 :: 1 :: 0 :: 0 :: 0 :: 0 :: 0 :: 0 ::
        (encodeLabels labels ++ (0 :: (qt / 256 % 256) :: (qt % 256) :: [])))
      (qc / 256 % 256) (qc % 256) []
    rw [show (c1 :: c2 :: c3 :: c4 :: 0 :: 1 :: 0 :: 0 :: 0 :: 0 :: 0 :: 0 ::
        (encodeLabels labels ++ (0 :: (qt / 256 % 256) :: (qt % 256) :: [])) : List Nat) ++
        ((qc / 256 % 256) :: (qc % 256) :: []) =
        c1 :: c2 :: c3 :: c4 :: 0 :: 1 :: 0 :: 0 :: 0 :: 0 :: 0 :: 0 ::
        (encodeLabels labels ++ ([0] ++ (be16 qt ++ be16 qc))) from by
      simp [be16]] at h1
    rw [show (c1 :: c2 :: c3 :: c4 :: 0 :: 1 :: 0 :: 0 :: 0 :: 0 :: 0 :: 0 ::
        (encodeLabels labels ++ (0 :: (qt / 256 % 256) :: (qt % 256) :: [])) : List Nat).length =
        12 + (encodeLabels labels).length + 1 + 2 from by
      simp only [List.length_cons, List.length_append, List.length_nil]
      omega] at h1
    rw [show qc / 256 % 256 * 256 + qc % 256 = qc from by omega] at h1
    rw [hBUF]
    exact h1
  have hpq : parse_questions BUF fuel 1 12 =
      .ok ([⟨joinDots labels, qt, qc⟩],
        12 + (encodeLabels labels).length + 1 + 4) := by
    have h := parse_questions_succ BUF fuel 0 12
    rw [hq1] at h
    simp only [RunRes.bind_ok] at h
    rw [hqt16] at h
    simp only [RunRes.bind_ok] at h
    rw [hqc16] at h
    simp only [RunRes.bind_ok] at h
    rw [show parse_questions BUF fuel 0 (12 + (encodeLabels labels).length + 1 + 4) =
      .ok ([], 12 + (encodeLabels labels).length + 1 + 4) from rfl] at h
    simp only [RunRes.bind_ok] at h
    exact h
  rw [from_bytes_unfold]
  rw [hr0]
  simp only [RunRes.bind_ok]
  rw [hr2]
  simp only [RunRes.bind_ok]
  rw [hr4]
  simp only [RunRes.bind_ok]
  rw [hr6]
  simp only [RunRes.bind_ok]
  rw [hr8]
  simp only [RunRes.bind_ok]
  rw [hr10]
  simp only [RunRes.bind_ok]
  rw [hpq]
  simp only [RunRes.bind_ok]
  rfl

/-- Claim C3: for every message with a single question (question count 1,
all other counts 0) whose name satisfies the label invariants, decoding
the encoder's output reproduces the header counts and the question's
name, type and class byte-for-byte (so casing and format are preserved).
The `u16` fields of the Rust struct are reflected by `< 65536` bounds,
and the fuel must cover the label count plus the terminator. -/
theorem c3_roundtrip (msg : DnsMessage) (fuel : Nat)
    (hname : validName msg.question.qname)
    (hq : msg.header.no_of_questions = 1)
    (ha : msg.header.no_of_answers_rr = 0)
    (hns : msg.header.no_of_authority_rr = 0)
    (hr : msg.header.no_of_additional_rr = 0)
    (hqt : msg.question.qtype < 65536)
    (hqc : msg.question.qclass < 65536)
    (hfuel : (splitDot msg.question.qname).length + 1 ≤ fuel) :
    ∃ m2, DnsMessage.from_bytes msg.to_bytes fuel = .ok m2 ∧
      m2.header.no_of_questions = msg.header.no_of_questions ∧
      m2.header.no_of_answers_rr = msg.header.no_of_answers_rr ∧
      m2.header.no_of_authority_rr = msg.header.no_of_authority_rr ∧
      m2.header.no_of_additional_rr = msg.header.no_of_additional_rr ∧
      m2.question.qname = msg.question.qname ∧
      m2.question.qtype = msg.question.qtype ∧
      m2.question.qclass = msg.question.qclass := by
  have hBUF : msg.to_bytes =
      (msg.header.identification / 256 % 256) :: (msg.header.identification % 256) ::
      (msg.header.flags / 256 % 256) :: (msg.header.flags % 256) ::
      0 :: 1 :: 0 :: 0 :: 0 :: 0 :: 0 :: 0 ::
      (encodeLabels (splitDot msg.question.qname) ++
        ([0] ++ (be16 msg.question.qtype ++ be16 msg.question.qclass))) := by
    simp only [DnsMessage.to_bytes, hq, ha, hns, hr]
    simp [be16]
  have happly := decode_encoded_question
    (msg.header.identification / 256 % 256) (msg.header.identification % 256)
    (msg.header.flags / 256 % 256) (msg.header.flags % 256)
    msg.question.qtype msg.question.qclass fuel
    (splitDot msg.question.qname) msg.to_bytes hBUF hname hfuel hqt hqc
  rw [joinDots_splitDot] at happly
  exact ⟨_, happly, hq.symm, ha.symm, hns.symm, hr.symm, rfl, rfl, rfl⟩

/-- Witness for C3 at the freshly constructed query for "example.com"
(question count 1, zero record counts, qtype 28, qclass 1) with fuel 3. -/
theorem c3_roundtrip_witness :
    ∃ m2, DnsMessage.from_bytes (DnsMessage.new exampleComBytes).to_bytes 3 = .ok m2 ∧
      m2.header.no_of_questions = (DnsMessage.new exampleComBytes).header.no_of_questions ∧
      m2.header.no_of_answers_rr = (DnsMessage.new exampleComBytes).header.no_of_answers_rr ∧
      m2.header.no_of_authority_rr = (DnsMessage.new exampleComBytes).header.no_of_authority_rr ∧
      m2.header.no_of_additional_rr = (DnsMessage.new exampleComBytes).header.no_of_additional_rr ∧
      m2.question.qname = (DnsMessage.new exampleComBytes).question.qname ∧
      m2.question.qtype = (DnsMessage.new exampleComBytes).question.qtype ∧
      m2.question.qclass = (DnsMessage.new exampleComBytes).question.qclass :=
  c3_roundtrip (DnsMessage.new exampleComBytes) 3 (by decide) rfl rfl rfl rfl
    (by decide) (by decide) (by decide)

/-- Claim C6, counterexample: the empty name "" violates the label
invariants (its single label is empty), yet the encoder does not fail with
`InvalidName` — `to_bytes` is a total function with no error channel and
it produces a concrete byte sequence (18 zero bytes) for this message. -/
theorem c6_counterexample :
    ¬ validName ([] : List Nat) ∧
    DnsMessage.to_bytes ⟨⟨0, 0, 0, 0, 0, 0⟩, ⟨[], 0, 0⟩, [], [], []⟩ =
      [0, 0, 0, 0, 0, 0, 0, 0, 0, 0, 0, 0, 0, 0, 0, 0, 0, 0] :=
  ⟨by decide, by decide⟩

/-- Claim C6 (amended): encode is total and failure-free for every
message, including those whose name violates the label invariants; an
invalid name is still encoded into the standard-shape byte sequence of
length 18 plus the name length, and no `InvalidName` error exists. -/
theorem c6_encode_total_on_invalid (msg : DnsMessage)
    (h : ¬ validName msg.question.qname) :
    msg.to_bytes.length = 18 + msg.question.qname.length :=
  to_bytes_length msg

/-- Witness for C6's amended theorem at the empty (invalid) name. -/
theorem c6_encode_total_on_invalid_witness :
    (DnsMessage.to_bytes ⟨⟨0, 0, 0, 0, 0, 0⟩, ⟨[], 0, 0⟩, [], [], []⟩).length =
      18 + ([] : List Nat).length :=
  c6_encode_total_on_invalid ⟨⟨0, 0, 0, 0, 0, 0⟩, ⟨[], 0, 0⟩, [], [], []⟩ (by decide)

/-- Claim C9: for every message whose question name is "example.com", the
bytes following the 12-byte header are exactly
`07 example 03 com 00` followed by the big-endian type and class. -/
theorem c9_name_encoding (msg : DnsMessage)
    (h : msg.question.qname = exampleComBytes) :
    msg.to_bytes.drop 12 =
      exampleComEncoded ++ (be16 msg.question.qtype ++ be16 msg.question.qclass) := by
  have hsh : msg.to_bytes =
      (be16 msg.header.identification ++ be16 msg.header.flags ++
       be16 msg.header.no_of_questions ++ be16 msg.header.no_of_answers_rr ++
       be16 msg.header.no_of_authority_rr ++ be16 msg.header.no_of_additional_rr) ++
      (exampleComEncoded ++ (be16 msg.question.qtype ++ be16 msg.question.qclass)) := by
    simp only [DnsMessage.to_bytes, h]
    rw [show encodeLabels (splitDot exampleComBytes) =
      [7, 101, 120, 97, 109, 112, 108, 101, 3, 99, 111, 109] from by decide]
    simp [exampleComEncoded, be16]
  rw [hsh]
  rw [show (12 : Nat) =
    (be16 msg.header.identification ++ be16 msg.header.flags ++
     be16 msg.header.no_of_questions ++ be16 msg.header.no_of_answers_rr ++
     be16 msg.header.no_of_authority_rr ++ be16 msg.header.no_of_additional_rr).length
    from by simp [be16]]
  exact drop_append_self _ _

/-- Witness for C9 at the freshly constructed query for "example.com". -/
theorem c9_name_encoding_witness :
    (DnsMessage.new exampleComBytes).to_bytes.drop 12 =
      exampleComEncoded ++ (be16 (DnsMessage.new exampleComBytes).question.qtype ++
        be16 (DnsMessage.new exampleComBytes).question.qclass) :=
  c9_name_encoding (DnsMessage.new exampleComBytes) rfl
